import Mathlib

/-
Verification development for the cursor-project-rules extension.

The definitions below are a shallow embedding of the TypeScript sources:
  src/utils/repositoryManager.ts  (RepositoryManager)
  src/utils/ruleManager.ts        (RuleManager)
  src/commands/manageRepositories.ts (toggle operations)

The filesystem is modelled explicitly: a set of existing paths (for
fs.exists checks), directory listings (for fs.readdir), and a flat map
from file paths to byte contents (for fs.copyFile).  Git operations are
modelled as an emitted trace of attempted operations together with a
failure oracle that says which attempts throw.
-/

namespace CursorRules

/-! ### String helpers mirroring the JavaScript primitives used by the source -/

/-- JavaScript `s.split(sep)` for a one-character separator: the result is the
list of (possibly empty) chunks between occurrences of the separator and is
never empty. -/
def splitOnChar (sep : Char) : List Char → List (List Char)
  | [] => [[]]
  | c :: cs =>
    match splitOnChar sep cs with
    | [] => [[]]
    | s :: ss => if c = sep then [] :: s :: ss else (c :: s) :: ss

/-- Does `pat` occur at the very start of `s`? -/
def startsWithL : List Char → List Char → Bool
  | [], _ => true
  | _ :: _, [] => false
  | p :: ps, c :: cs => p = c && startsWithL ps cs

/-- JavaScript `s.replace(pat, '')` for a string pattern: remove the first
occurrence of `pat` (and only the first) from `s`. -/
def removeFirstOcc (pat : List Char) : List Char → List Char
  | [] => []
  | c :: cs =>
    if startsWithL pat (c :: cs) then (c :: cs).drop pat.length
    else c :: removeFirstOcc pat cs

/-- Does `s` end with `suf`? (JavaScript `s.endsWith(suf)`.) -/
def endsWithL (suf s : List Char) : Bool :=
  startsWithL suf.reverse s.reverse

/-- JavaScript `s.endsWith(suf)` on strings. -/
def strEndsWith (s suf : String) : Bool :=
  endsWithL suf.toList s.toList

/-- Node `path.basename(nm, ext)` restricted to slash-free names (directory
entry names contain no separator): a name equal to the extension yields the
empty string (Node's suffix branch opens with `if (suffix === path) return ''`,
asserted by its own test `basename('.js', '.js') === ''`), and otherwise a
matching suffix is removed; so for slash-free names the extension is stripped
exactly when it is a suffix. -/
def basenameDrop (nm ext : String) : String :=
  if strEndsWith nm ext = true then
    String.mk (nm.toList.take (nm.toList.length - ext.toList.length))
  else nm

/-- UTF-8 encoding of one character, as byte values. -/
def utf8Char (c : Char) : List Nat :=
  let n := c.toNat
  if n < 128 then [n]
  else if n < 2048 then [192 + n / 64, 128 + n % 64]
  else if n < 65536 then [224 + n / 4096, 128 + (n / 64) % 64, 128 + n % 64]
  else [240 + n / 262144, 128 + (n / 4096) % 64, 128 + (n / 64) % 64, 128 + n % 64]

/-- UTF-8 bytes of a string (Node `Buffer.from(s)`). -/
def utf8Bytes (s : String) : List Nat :=
  s.toList.foldr (fun c acc => utf8Char c ++ acc) []

/-- The base64 alphabet. -/
def b64Char (i : Nat) : Char :=
  "ABCDEFGHIJKLMNOPQRSTUVWXYZabcdefghijklmnopqrstuvwxyz0123456789+/".toList.getD i 'A'

/-- Standard base64 with `=` padding (Node `buf.toString('base64')`). -/
def base64Encode : List Nat → List Char
  | [] => []
  | [b1] => [b64Char (b1 / 4), b64Char (b1 % 4 * 16), '=', '=']
  | [b1, b2] => [b64Char (b1 / 4), b64Char (b1 % 4 * 16 + b2 / 16), b64Char (b2 % 16 * 4), '=']
  | b1 :: b2 :: b3 :: rest =>
    b64Char (b1 / 4) :: b64Char (b1 % 4 * 16 + b2 / 16) ::
      b64Char (b2 % 16 * 4 + b3 / 64) :: b64Char (b3 % 64) :: base64Encode rest

/-! ### Data model (repositoryManager.ts / ruleManager.ts interfaces) -/

/-- `interface Repository` (repositoryManager.ts, lines 11-17). -/
structure Repository where
  url : String
  enabled : Bool
  branch : String
  rulesDir : String
  autoUpdate : Bool
deriving DecidableEq

/-- `interface Rule` (ruleManager.ts, lines 11-16). -/
structure Rule where
  name : String
  repoUrl : String
  path : String
  enabled : Bool
deriving DecidableEq

/-! ### Working-copy path derivation (repositoryManager.ts, getRepoPath, lines 54-59)

```
const repoName = repoUrl.split('/').pop()?.replace('.git', '') ||
                Buffer.from(repoUrl).toString('base64');
return path.join(this.repoStoragePath, repoName);
```
`split('/')` always returns a non-empty array, so `pop()` never yields
`undefined`; the `||` fallback fires exactly when the string after the
replace is empty (the only falsy string). -/

/-- Last chunk of `url.split('/')`. -/
def lastSegment (url : String) : List Char :=
  (splitOnChar '/' url.toList).getLastD []

/-- `url.split('/').pop().replace('.git', '')`. -/
def repoBaseName (url : String) : List Char :=
  removeFirstOcc ".git".toList (lastSegment url)

/-- The working-copy directory name derived from the repository url. -/
def repoDirName (url : String) : String :=
  if repoBaseName url = [] then String.mk (base64Encode (utf8Bytes url))
  else String.mk (repoBaseName url)

/-- `path.join(repoStoragePath, repoName)`. -/
def getRepoPath (storage url : String) : String :=
  storage ++ "/" ++ repoDirName url

/-! ### Repository synchronizer (repositoryManager.ts, refreshRepositories, lines 61-96)

The loop walks the full configured list, skips disabled entries, clones a
repository whose working-copy path does not exist, and checks out the
configured branch and pulls when the path exists and `autoUpdate` is set.
The `try/catch` around the git calls turns a failure into an error
notification and moves on to the next repository.  We record every
*attempted* git operation in a trace; a failure oracle `fails` says which
attempts throw. -/

/-- One attempted git operation.  `checkoutPull` stands for the
`checkout(branch)`-then-`pull()` pair executed inside a single try block. -/
inductive VcsOp where
  | clone (url wcPath branch : String)
  | checkoutPull (url wcPath branch : String)
deriving DecidableEq

/-- The repository url an operation was issued for. -/
def opUrl : VcsOp → String
  | .clone u _ _ => u
  | .checkoutPull u _ _ => u

/-- Is this op a clone for url `u`? -/
def isCloneFor (u : String) : VcsOp → Bool
  | .clone v _ _ => v = u
  | .checkoutPull _ _ _ => false

/-- Is this op a checkout-then-pull for url `u`? -/
def isPullFor (u : String) : VcsOp → Bool
  | .checkoutPull v _ _ => v = u
  | .clone _ _ _ => false

/-- Number of clone attempts for url `u` in a trace. -/
def cloneCountUrl (u : String) (t : List VcsOp) : Nat := t.countP (isCloneFor u)

/-- Number of checkout-then-pull attempts for url `u` in a trace. -/
def pullCountUrl (u : String) (t : List VcsOp) : Nat := t.countP (isPullFor u)

/-- The git operation (if any) that the loop body attempts for one
repository, given the set `fs` of paths existing when it is reached:
disabled → nothing; path missing → clone; path present and autoUpdate →
checkout+pull; otherwise nothing. -/
def repoAttempt (storage : String) (fs : List String) (repo : Repository) : Option VcsOp :=
  if repo.enabled then
    if getRepoPath storage repo.url ∈ fs then
      if repo.autoUpdate then
        some (.checkoutPull repo.url (getRepoPath storage repo.url) repo.branch)
      else none
    else some (.clone repo.url (getRepoPath storage repo.url) repo.branch)
  else none

/-- A successful clone creates the working-copy directory; a successful
checkout+pull creates nothing new. -/
def cloneTargets : VcsOp → List String
  | .clone _ p _ => [p]
  | .checkoutPull _ _ _ => []

/-- Outcome of a synchronization run: the trace of attempted git
operations, the urls reported in error notifications, and the final set
of existing working-copy paths. -/
structure SyncResult where
  ops : List VcsOp
  errors : List String
  fs : List String
deriving DecidableEq

/-- `refreshRepositories` (lines 61-96): sequential loop over the full
configured list with per-repository try/catch. -/
def refreshRepositories (fails : VcsOp → Bool) (storage : String) :
    List Repository → List String → SyncResult
  | [], fs => ⟨[], [], fs⟩
  | repo :: rest, fs =>
    match repoAttempt storage fs repo with
    | none => refreshRepositories fails storage rest fs
    | some op =>
      if fails op then
        let res := refreshRepositories fails storage rest fs
        ⟨op :: res.ops, repo.url :: res.errors, res.fs⟩
      else
        let res := refreshRepositories fails storage rest (fs ++ cloneTargets op)
        ⟨op :: res.ops, res.errors, res.fs⟩

/-! ### Rule aggregator (repositoryManager.ts, getAllRules, lines 98-132) -/

/-- One entry of `fs.readdir(..., { withFileTypes: true })`. -/
structure DirEntry where
  name : String
  isFile : Bool
deriving DecidableEq

/-- The directory listings the filesystem would return: an association
list from directory path to its immediate entries; a missing key models a
`readdir` failure (caught: error message, repository contributes nothing). -/
def lookupListing (p : String) : List (String × List DirEntry) → Option (List DirEntry)
  | [] => none
  | (q, es) :: rest => if q = p then some es else lookupListing p rest

/-- The inner `for (const entry of entries)` loop (lines 112-125): keep
regular files whose name ends in `.mdc`, naming the rule
`path.basename(entry.name, '.mdc')`. -/
def rulesFromEntries (repoUrl rulesPath : String) : List DirEntry → List Rule
  | [] => []
  | e :: es =>
    if e.isFile && strEndsWith e.name ".mdc" then
      { name := basenameDrop e.name ".mdc", repoUrl := repoUrl, path := rulesPath,
        enabled := true } :: rulesFromEntries repoUrl rulesPath es
    else rulesFromEntries repoUrl rulesPath es

/-- `getAllRules` (lines 98-132): loop over the enabled repositories
(`getEnabledRepositories` filters, modelled by skipping disabled entries in
order), skip a repository whose `<repoPath>/<rulesDir>` does not exist,
and collect the matching directory entries. -/
def getAllRules (storage : String) (fsx : List String)
    (listings : List (String × List DirEntry)) : List Repository → List Rule
  | [] => []
  | repo :: rest =>
    if repo.enabled then
      (if getRepoPath storage repo.url ++ "/" ++ repo.rulesDir ∈ fsx then
        match lookupListing (getRepoPath storage repo.url ++ "/" ++ repo.rulesDir) listings with
        | some entries =>
          rulesFromEntries repo.url (getRepoPath storage repo.url ++ "/" ++ repo.rulesDir) entries
        | none => []
      else []) ++ getAllRules storage fsx listings rest
    else getAllRules storage fsx listings rest

/-- The aggregator contract as the specification words it (spec section 4.2):
consider only enabled repositories, resolve `<workingCopyPath>/<rulesSubdirectory>`,
skip it silently when absent, and otherwise keep exactly the immediate
regular-file entries carrying the rule extension, deriving each name by
stripping the extension from the filename. -/
def listRulesSpec (storage : String) (fsx : List String)
    (listings : List (String × List DirEntry)) (repos : List Repository) : List Rule :=
  (repos.filter (fun r => r.enabled)).flatMap (fun repo =>
    if getRepoPath storage repo.url ++ "/" ++ repo.rulesDir ∈ fsx then
      match lookupListing (getRepoPath storage repo.url ++ "/" ++ repo.rulesDir) listings with
      | some entries =>
        (entries.filter (fun e => e.isFile && strEndsWith e.name ".mdc")).map
          (fun e => { name := String.mk (e.name.toList.take
                        (e.name.toList.length - ".mdc".toList.length)),
                      repoUrl := repo.url,
                      path := getRepoPath storage repo.url ++ "/" ++ repo.rulesDir,
                      enabled := true })
      | none => []
    else [])

/-- The read-only state `getAllRules` consults. -/
structure ScanWorld where
  fsx : List String
  listings : List (String × List DirEntry)
deriving DecidableEq

/-- `getAllRules` as a state-passing operation: it only performs reads
(`exists`, `readdir`), so the world it returns is the world it was given. -/
def getAllRulesSt (storage : String) (repos : List Repository) (w : ScanWorld) :
    List Rule × ScanWorld :=
  (getAllRules storage w.fsx w.listings repos, w)

/-! ### Rule installer (ruleManager.ts, installRule lines 59-80 and
installAllRules lines 82-117)

`installRule` ensures the local rules directory exists (`mkdir` with
`recursive: true`), then copies `<rule.path>/<rule.name>.mdc` to
`<localRulesDir>/<rule.name>.mdc`; `copyFile` overwrites an existing
target and throws when the source is missing, and the throw is re-raised
to the caller.  `installAllRules` loops over the rules, counting
successes and failures, catching each failure. -/

/-- Mutable filesystem state for the installer: existing directories and a
map from file path to byte content. -/
structure FileSys where
  dirs : List String
  files : List (String × List Nat)
deriving DecidableEq

/-- Association-list lookup of a file's bytes. -/
def lookupFile (files : List (String × List Nat)) (p : String) : Option (List Nat) :=
  match files with
  | [] => none
  | (q, c) :: rest => if q = p then some c else lookupFile rest p

/-- Overwrite the binding for `p` in place, or append a fresh one. -/
def setFile (files : List (String × List Nat)) (p : String) (c : List Nat) :
    List (String × List Nat) :=
  match files with
  | [] => [(p, c)]
  | (q, d) :: rest => if q = p then (p, c) :: rest else (q, d) :: setFile rest p c

/-- Membership check over a path list. -/
def memStr (x : String) : List String → Bool
  | [] => false
  | y :: ys => if y = x then true else memStr x ys

/-- `fs.exists(p)`: true when any filesystem node (directory or file)
lives at `p`. -/
def existsPath (fs : FileSys) (p : String) : Bool :=
  memStr p fs.dirs || (lookupFile fs.files p).isSome

/-- The directory path built from the first `n+1` segments, for each `n`:
`"a/b/c"` yields `["a", "a/b", "a/b/c"]`. -/
def pathPrefixList (p : String) : List String :=
  (List.range (splitOnChar '/' p.toList).length).map
    (fun i => String.mk (List.intercalate ['/'] ((splitOnChar '/' p.toList).take (i + 1))))

/-- `fs.mkdir(p, { recursive: true })`: create every missing directory on
the way to `p`. -/
def mkdirRec (fs : FileSys) (p : String) : FileSys :=
  { fs with dirs := fs.dirs ++ (pathPrefixList p).filter (fun d => !memStr d fs.dirs) }

/-- `installRule` (lines 59-80).  `none` models the re-thrown copy error
(missing source file). -/
def installRule (rule : Rule) (localRulesDir : String) (fs : FileSys) : Option FileSys :=
  let fs1 := if existsPath fs localRulesDir then fs else mkdirRec fs localRulesDir
  match lookupFile fs1.files (rule.path ++ "/" ++ rule.name ++ ".mdc") with
  | none => none
  | some content =>
    some { fs1 with files := setFile fs1.files (localRulesDir ++ "/" ++ rule.name ++ ".mdc") content }

/-- The `for (const rule of rules)` loop of `installAllRules`
(lines 100-109): per-rule try/catch, counting `succeeded` and `failed`.
Returns the final filesystem and the two counters. -/
def installAllRules : List Rule → String → FileSys → FileSys × Nat × Nat
  | [], _, fs => (fs, 0, 0)
  | rule :: rest, dir, fs =>
    match installRule rule dir fs with
    | some fs2 =>
      let res := installAllRules rest dir fs2
      (res.1, res.2.1 + 1, res.2.2)
    | none =>
      let res := installAllRules rest dir fs
      (res.1, res.2.1, res.2.2 + 1)

/-- The per-rule success flags of the same sequential run, in order. -/
def installOutcomes : List Rule → String → FileSys → List Bool
  | [], _, _ => []
  | rule :: rest, dir, fs =>
    match installRule rule dir fs with
    | some fs2 => true :: installOutcomes rest dir fs2
    | none => false :: installOutcomes rest dir fs

/-! ### Single-item repository operations
(repositoryManager.ts lines 134-221, manageRepositories.ts lines 193-239) -/

/-- The message of the error thrown by `updateRepository` when the url is
not configured (line 139). -/
def notFoundConfigMsg (url : String) : String :=
  "Repository " ++ url ++ " not found in configuration"

/-- The error shown by the toggle commands when the url is not configured
(manageRepositories.ts lines 199 and 227). -/
def repoNotFoundMsg (url : String) : String :=
  "Repository " ++ url ++ " not found"

/-- `updateRepository` (lines 134-164): find the descriptor by url (throw
when absent), require the working-copy directory to exist (throw when
absent), then checkout the configured branch and pull, re-throwing a git
failure.  Result: the attempted git operations paired with the outcome. -/
def updateRepository (fails : VcsOp → Bool) (storage : String) (repos : List Repository)
    (url : String) (fsx : List String) : List VcsOp × Except String Unit :=
  match repos.find? (fun r => r.url = url) with
  | none => ([], .error (notFoundConfigMsg url))
  | some repo =>
    if getRepoPath storage url ∈ fsx then
      if fails (.checkoutPull url (getRepoPath storage url) repo.branch) then
        ([.checkoutPull url (getRepoPath storage url) repo.branch], .error "git update failed")
      else ([.checkoutPull url (getRepoPath storage url) repo.branch], .ok ())
    else ([], .error ("Repository directory not found: " ++ getRepoPath storage url))

/-- `addRepository` (lines 166-207): replace-by-url (the spread
`{ ...existing, ...repo }` yields `repo`, every field being present) or
append, write the configuration, then clone when the entry is enabled and
its working copy is missing.  Result: new configuration, attempted git
operations, and the outcome (`error` = the re-thrown clone failure). -/
def addRepository (fails : VcsOp → Bool) (storage : String) (repos : List Repository)
    (repo : Repository) (fsx : List String) :
    List Repository × List VcsOp × Except String Unit :=
  let repos2 :=
    match repos.findIdx? (fun r => r.url = repo.url) with
    | some i => repos.set i repo
    | none => repos ++ [repo]
  if repo.enabled then
    if getRepoPath storage repo.url ∈ fsx then (repos2, [], .ok ())
    else
      if fails (.clone repo.url (getRepoPath storage repo.url) repo.branch) then
        (repos2, [.clone repo.url (getRepoPath storage repo.url) repo.branch],
          .error "git clone failed")
      else (repos2, [.clone repo.url (getRepoPath storage repo.url) repo.branch], .ok ())
  else (repos2, [], .ok ())

/-- `toggleRepositoryEnabled` (manageRepositories.ts lines 193-211): url
absent from configuration → error message, nothing else happens;
otherwise flip `enabled` and store through `addRepository`.  The result
carries the new configuration and the attempted git operations. -/
def toggleRepositoryEnabled (fails : VcsOp → Bool) (storage : String)
    (repos : List Repository) (url : String) (fsx : List String) :
    Except String (List Repository × List VcsOp) :=
  match repos.find? (fun r => r.url = url) with
  | none => .error (repoNotFoundMsg url)
  | some repo =>
    let t := addRepository fails storage repos { repo with enabled := !repo.enabled } fsx
    .ok (t.1, t.2.1)

/-- `toggleAutoUpdate` (manageRepositories.ts lines 221-239): same shape,
flipping `autoUpdate`. -/
def toggleAutoUpdate (fails : VcsOp → Bool) (storage : String)
    (repos : List Repository) (url : String) (fsx : List String) :
    Except String (List Repository × List VcsOp) :=
  match repos.find? (fun r => r.url = url) with
  | none => .error (repoNotFoundMsg url)
  | some repo =>
    let t := addRepository fails storage repos { repo with autoUpdate := !repo.autoUpdate } fsx
    .ok (t.1, t.2.1)

/-- `removeRepository` (lines 209-221): filter the url out of the list and
write the configuration back.  There is no not-found check and no
filesystem access (the working copy is deliberately kept). -/
def removeRepository (repos : List Repository) (url : String) : List Repository :=
  repos.filter (fun r => r.url != url)

/-- `removeRepository` together with the untouched installer filesystem:
the source performs no filesystem call, so the state passes through. -/
def removeRepositoryFS (repos : List Repository) (url : String) (fs : FileSys) :
    List Repository × FileSys :=
  (removeRepository repos url, fs)

/-- Modelled from the spec: the spec's error taxonomy (section 7) demands
a `NotFoundError` when the referenced url is absent during a remove; the
source has no such check, so the spec's version of the operation is
defined here separately for comparison. -/
def removeRepositorySpec (repos : List Repository) (url : String) :
    Except String (List Repository) :=
  if repos.any (fun r => r.url = url) then .ok (repos.filter (fun r => r.url != url))
  else .error "NotFoundError"

/-! ### Sample configurations used by concrete instantiations -/

/-- Enabled, working copy missing. -/
def c1A : Repository := ⟨"https://h/x/a.git", true, "main", "rules", true⟩

/-- Enabled, working copy present, auto-update on. -/
def c1B : Repository := ⟨"https://h/x/b.git", true, "main", "rules", true⟩

/-- Enabled, working copy present, auto-update off. -/
def c1C : Repository := ⟨"https://h/x/c.git", true, "main", "rules", false⟩

/-- Disabled. -/
def c1D : Repository := ⟨"https://h/x/d.git", false, "main", "rules", true⟩

/-- First owner of the shared working-copy name `rules`. -/
def c1X : Repository := ⟨"https://h/a/rules.git", true, "main", "rules", false⟩

/-- Second owner of the shared working-copy name `rules`. -/
def c1Y : Repository := ⟨"https://h/b/rules.git", true, "main", "rules", false⟩

/-- Failure oracle that rejects exactly the clone of `c1A`'s url. -/
def c6fails : VcsOp → Bool :=
  fun op => op == VcsOp.clone "https://h/x/a.git" "st/a" "main"

/-- Rule whose source file exists in `c2fs`. -/
def c2r1 : Rule := ⟨"a", "https://h/x/a.git", "repo/rules", true⟩

/-- Rule whose source file is missing from `c2fs`. -/
def c2r2 : Rule := ⟨"b", "https://h/x/a.git", "repo/rules", true⟩

/-- Rule whose source file exists in `c2fs`. -/
def c2r3 : Rule := ⟨"c", "https://h/x/a.git", "repo/rules", true⟩

/-- Installer filesystem holding sources for `c2r1` and `c2r3` only. -/
def c2fs : FileSys := ⟨["ws"], [("repo/rules/a.mdc", [1]), ("repo/rules/c.mdc", [3])]⟩

/-- Configured repository that is not the one being looked up. -/
def c7B : Repository := ⟨"https://h/x/b.git", true, "main", "rules", true⟩

/-! ### Helper lemmas -/

lemma lookup_setFile_self (p : String) (c : List Nat) :
    ∀ files, lookupFile (setFile files p c) p = some c := by
  intro files
  induction files with
  | nil => simp [setFile, lookupFile]
  | cons hd rest ih =>
    obtain ⟨q, d⟩ := hd
    by_cases hq : q = p
    · simp [setFile, lookupFile, hq]
    · simp [setFile, lookupFile, hq, ih]

lemma lookup_setFile_ne (p q : String) (c : List Nat) (h : q ≠ p) :
    ∀ files, lookupFile (setFile files p c) q = lookupFile files q := by
  intro files
  induction files with
  | nil => simp [setFile, lookupFile, Ne.symm h]
  | cons hd rest ih =>
    obtain ⟨x, d⟩ := hd
    by_cases hx : x = p
    · subst hx
      simp [setFile, lookupFile, h, Ne.symm h, ih]
    · by_cases hxq : x = q
      · simp [setFile, lookupFile, hx, hxq, h]
      · simp [setFile, lookupFile, hx, hxq, ih]

lemma map_fst_setFile (p : String) (c : List Nat) :
    ∀ files, (setFile files p c).map Prod.fst =
      if (lookupFile files p).isSome then files.map Prod.fst
      else files.map Prod.fst ++ [p] := by
  intro files
  induction files with
  | nil => simp [setFile, lookupFile]
  | cons hd rest ih =>
    obtain ⟨q, d⟩ := hd
    by_cases hq : q = p
    · simp [setFile, lookupFile, hq]
    · simp [setFile, lookupFile, hq, ih]
      split <;> simp

lemma memStr_iff (x : String) : ∀ l : List String, memStr x l = true ↔ x ∈ l := by
  intro l
  induction l with
  | nil => simp [memStr]
  | cons y ys ih =>
    by_cases hy : y = x
    · simp [memStr, hy]
    · simp [memStr, hy, ih, Ne.symm hy]

lemma mkdirRec_files (fs : FileSys) (p : String) : (mkdirRec fs p).files = fs.files := rfl

lemma mem_mkdirRec (fs : FileSys) (p d : String) (hd : d ∈ pathPrefixList p) :
    d ∈ (mkdirRec fs p).dirs := by
  unfold mkdirRec
  simp only [List.mem_append, List.mem_filter]
  by_cases hmem : d ∈ fs.dirs
  · exact Or.inl hmem
  · refine Or.inr ⟨hd, ?_⟩
    rw [← memStr_iff] at hmem
    simpa using hmem

lemma count_filter_url (url : String) (r : Repository) (repos : List Repository) :
    (repos.filter (fun x => x.url != url)).count r =
      if r.url = url then 0 else repos.count r := by
  induction repos with
  | nil => simp
  | cons a rest ih =>
    by_cases ha : a.url = url
    · have hkeep : (a.url != url) = false := by simp [ha]
      rw [List.filter_cons, hkeep]
      simp only [Bool.false_eq_true, if_false]
      rw [ih]
      by_cases hr : r.url = url
      · simp [hr]
      · have har : a ≠ r := by
          intro h
          exact hr (h ▸ ha)
        simp [hr, List.count_cons, har]
    · have hkeep : (a.url != url) = true := by simp [ha]
      rw [List.filter_cons, hkeep]
      simp only [if_true]
      by_cases hr : r.url = url
      · have har : a ≠ r := by
          intro h
          exact ha (h ▸ hr)
        rw [List.count_cons, ih]
        simp [hr, har]
      · rw [List.count_cons, ih, List.count_cons]
        simp [hr]

lemma basenameDrop_of_endsWith (nm ext : String) (h : strEndsWith nm ext = true) :
    basenameDrop nm ext = String.mk (nm.toList.take (nm.toList.length - ext.toList.length)) := by
  unfold basenameDrop
  rw [if_pos h]

lemma rulesFromEntries_eq (repoUrl rulesPath : String) (es : List DirEntry) :
    rulesFromEntries repoUrl rulesPath es =
      (es.filter (fun e => e.isFile && strEndsWith e.name ".mdc")).map
        (fun e => { name := basenameDrop e.name ".mdc", repoUrl := repoUrl,
                    path := rulesPath, enabled := true }) := by
  induction es with
  | nil => rfl
  | cons e rest ih =>
    cases he : (e.isFile && strEndsWith e.name ".mdc") <;>
      simp [rulesFromEntries, List.filter_cons, he, ih]

lemma repoAttempt_url (storage : String) (fs : List String) (repo : Repository) (op : VcsOp)
    (h : repoAttempt storage fs repo = some op) : opUrl op = repo.url := by
  unfold repoAttempt at h
  split_ifs at h <;> (try injection h with h) <;> (try cases h) <;> simp [opUrl]

lemma repoAttempt_congr (storage : String) (fs1 fs2 : List String) (repo : Repository)
    (h : getRepoPath storage repo.url ∈ fs1 ↔ getRepoPath storage repo.url ∈ fs2) :
    repoAttempt storage fs1 repo = repoAttempt storage fs2 repo := by
  unfold repoAttempt
  by_cases he : repo.enabled
  · by_cases hm : getRepoPath storage repo.url ∈ fs1
    · rw [if_pos he, if_pos he, if_pos hm, if_pos (h.mp hm)]
    · rw [if_pos he, if_pos he, if_neg hm, if_neg (fun hc => hm (h.mpr hc))]
  · rw [if_neg he, if_neg he]

lemma repoAttempt_cloneTargets (storage : String) (fs : List String) (repo : Repository)
    (op : VcsOp) (h : repoAttempt storage fs repo = some op) :
    cloneTargets op = [] ∨ cloneTargets op = [getRepoPath storage repo.url] := by
  unfold repoAttempt at h
  split_ifs at h <;> (try injection h with h) <;> (try cases h) <;> simp [cloneTargets]

lemma repoAttempt_cases (storage : String) (fs : List String) (repo : Repository)
    (op : VcsOp) (h : repoAttempt storage fs repo = some op) :
    (repo.enabled = true ∧ getRepoPath storage repo.url ∉ fs ∧
      op = .clone repo.url (getRepoPath storage repo.url) repo.branch) ∨
    (repo.enabled = true ∧ getRepoPath storage repo.url ∈ fs ∧ repo.autoUpdate = true ∧
      op = .checkoutPull repo.url (getRepoPath storage repo.url) repo.branch) := by
  unfold repoAttempt at h
  split_ifs at h with h1 h2 h3
  · injection h with h
    exact Or.inr ⟨h1, h2, h3, h.symm⟩
  · injection h with h
    exact Or.inl ⟨h1, h2, h.symm⟩

lemma isCloneFor_of_ne (u : String) (op : VcsOp) (h : opUrl op ≠ u) :
    isCloneFor u op = false := by
  cases op <;> simp_all [isCloneFor, opUrl]

lemma isPullFor_of_ne (u : String) (op : VcsOp) (h : opUrl op ≠ u) :
    isPullFor u op = false := by
  cases op <;> simp_all [isPullFor, opUrl]

/-- No entry of `repos` carries url `u`: the run neither attempts a git
operation for `u` nor reports an error for it. -/
lemma refresh_zero (fails : VcsOp → Bool) (storage u : String) :
    ∀ (repos : List Repository) (fs : List String), (∀ r ∈ repos, r.url ≠ u) →
      cloneCountUrl u (refreshRepositories fails storage repos fs).ops = 0 ∧
      pullCountUrl u (refreshRepositories fails storage repos fs).ops = 0 ∧
      u ∉ (refreshRepositories fails storage repos fs).errors := by
  intro repos
  induction repos with
  | nil =>
    intro fs h
    simp [refreshRepositories, cloneCountUrl, pullCountUrl]
  | cons a rest ih =>
    intro fs h
    have ha : a.url ≠ u := h a (List.mem_cons_self a rest)
    have h2 : ∀ r ∈ rest, r.url ≠ u := fun r hr => h r (List.mem_cons_of_mem a hr)
    cases hA : repoAttempt storage fs a with
    | none => simpa [refreshRepositories, hA] using ih fs h2
    | some op =>
      have hurl : opUrl op = a.url := repoAttempt_url storage fs a op hA
      have hclone : isCloneFor u op = false := isCloneFor_of_ne u op (hurl ▸ ha)
      have hpull : isPullFor u op = false := isPullFor_of_ne u op (hurl ▸ ha)
      by_cases hf : fails op = true
      · have hr := ih fs h2
        simp [refreshRepositories, hA, hf, cloneCountUrl, pullCountUrl, List.countP_cons,
          hclone, hpull, Ne.symm ha, hr.1, hr.2.1, hr.2.2, cloneCountUrl] at *
        simp_all [cloneCountUrl, pullCountUrl]
      · have hr := ih (fs ++ cloneTargets op) h2
        simp [refreshRepositories, hA, hf, cloneCountUrl, pullCountUrl, List.countP_cons,
          hclone, hpull] at *
        simp_all [cloneCountUrl, pullCountUrl]

lemma repoAttempt_disabled (storage : String) (fs : List String) (repo : Repository)
    (he : repo.enabled = false) : repoAttempt storage fs repo = none := by
  unfold repoAttempt
  rw [if_neg]
  simp [he]

lemma repoAttempt_of_missing (storage : String) (fs : List String) (repo : Repository)
    (he : repo.enabled = true) (hm : getRepoPath storage repo.url ∉ fs) :
    repoAttempt storage fs repo =
      some (.clone repo.url (getRepoPath storage repo.url) repo.branch) := by
  unfold repoAttempt
  rw [if_pos he, if_neg hm]

lemma repoAttempt_of_auto (storage : String) (fs : List String) (repo : Repository)
    (he : repo.enabled = true) (hm : getRepoPath storage repo.url ∈ fs)
    (ha : repo.autoUpdate = true) :
    repoAttempt storage fs repo =
      some (.checkoutPull repo.url (getRepoPath storage repo.url) repo.branch) := by
  unfold repoAttempt
  rw [if_pos he, if_pos hm, if_pos ha]

lemma repoAttempt_of_noauto (storage : String) (fs : List String) (repo : Repository)
    (he : repo.enabled = true) (hm : getRepoPath storage repo.url ∈ fs)
    (ha : repo.autoUpdate = false) : repoAttempt storage fs repo = none := by
  unfold repoAttempt
  rw [if_pos he, if_pos hm, if_neg]
  simp [ha]

lemma refresh_cons_none (fails : VcsOp → Bool) (storage : String) (a : Repository)
    (rest : List Repository) (fs : List String) (hA : repoAttempt storage fs a = none) :
    refreshRepositories fails storage (a :: rest) fs =
      refreshRepositories fails storage rest fs := by
  simp [refreshRepositories, hA]

lemma refresh_cons_fail (fails : VcsOp → Bool) (storage : String) (a : Repository)
    (rest : List Repository) (fs : List String) (op : VcsOp)
    (hA : repoAttempt storage fs a = some op) (hf : fails op = true) :
    refreshRepositories fails storage (a :: rest) fs =
      ⟨op :: (refreshRepositories fails storage rest fs).ops,
       a.url :: (refreshRepositories fails storage rest fs).errors,
       (refreshRepositories fails storage rest fs).fs⟩ := by
  simp [refreshRepositories, hA, hf]

lemma refresh_cons_ok (fails : VcsOp → Bool) (storage : String) (a : Repository)
    (rest : List Repository) (fs : List String) (op : VcsOp)
    (hA : repoAttempt storage fs a = some op) (hf : fails op = false) :
    refreshRepositories fails storage (a :: rest) fs =
      ⟨op :: (refreshRepositories fails storage rest (fs ++ cloneTargets op)).ops,
       (refreshRepositories fails storage rest (fs ++ cloneTargets op)).errors,
       (refreshRepositories fails storage rest (fs ++ cloneTargets op)).fs⟩ := by
  simp [refreshRepositories, hA, hf]

lemma cloneCountUrl_cons (u : String) (op : VcsOp) (t : List VcsOp) :
    cloneCountUrl u (op :: t) = cloneCountUrl u t + if isCloneFor u op then 1 else 0 :=
  List.countP_cons _ _ _

lemma pullCountUrl_cons (u : String) (op : VcsOp) (t : List VcsOp) :
    pullCountUrl u (op :: t) = pullCountUrl u t + if isPullFor u op then 1 else 0 :=
  List.countP_cons _ _ _

/-- Per-repository characterization of one synchronization run, provided
distinct configured repositories derive distinct working-copy paths:
how many clone attempts and checkout+pull attempts target each
repository's url, and exactly when that url is reported in an error
notification. -/
lemma refresh_spec (fails : VcsOp → Bool) (storage : String) :
    ∀ (repos : List Repository) (fs : List String) (r : Repository),
      r ∈ repos → ((repos.map fun x => getRepoPath storage x.url).Nodup) →
      (cloneCountUrl r.url (refreshRepositories fails storage repos fs).ops
        = if r.enabled = true ∧ getRepoPath storage r.url ∉ fs then 1 else 0) ∧
      (pullCountUrl r.url (refreshRepositories fails storage repos fs).ops
        = if r.enabled = true ∧ getRepoPath storage r.url ∈ fs ∧ r.autoUpdate = true
          then 1 else 0) ∧
      (r.url ∈ (refreshRepositories fails storage repos fs).errors
        ↔ ∃ op, repoAttempt storage fs r = some op ∧ fails op = true) := by
  intro repos
  induction repos with
  | nil =>
    intro fs r hr
    simp at hr
  | cons a rest ih =>
    intro fs r hr hnd
    rw [List.map_cons, List.nodup_cons] at hnd
    obtain ⟨hpa, hnd2⟩ := hnd
    have hua : ∀ r2 ∈ rest, r2.url ≠ a.url := by
      intro r2 hr2 heq
      have hm2 : getRepoPath storage r2.url ∈ rest.map (fun x => getRepoPath storage x.url) :=
        List.mem_map_of_mem _ hr2
      rw [heq] at hm2
      exact hpa hm2
    rcases List.mem_cons.mp hr with heq | hr2
    · subst heq
      obtain ⟨z1, z2, z3⟩ := refresh_zero fails storage r.url rest fs hua
      by_cases he : r.enabled = true
      · by_cases hm : getRepoPath storage r.url ∈ fs
        · by_cases hau : r.autoUpdate = true
          · have hA := repoAttempt_of_auto storage fs r he hm hau
            by_cases hf : fails (.checkoutPull r.url (getRepoPath storage r.url) r.branch) = true
            · rw [refresh_cons_fail fails storage r rest fs _ hA hf]
              refine ⟨?_, ?_, ?_⟩
              · rw [cloneCountUrl_cons, z1]
                simp [isCloneFor, hm]
              · rw [pullCountUrl_cons, z2]
                simp [isPullFor, he, hm, hau]
              · simp [hA, hf]
            · have hf2 : fails (.checkoutPull r.url (getRepoPath storage r.url) r.branch)
                  = false := by simpa using hf
              rw [refresh_cons_ok fails storage r rest fs _ hA hf2]
              simp only [cloneTargets, List.append_nil]
              refine ⟨?_, ?_, ?_⟩
              · rw [cloneCountUrl_cons, z1]
                simp [isCloneFor, hm]
              · rw [pullCountUrl_cons, z2]
                simp [isPullFor, he, hm, hau]
              · simp [hA, hf2, z3]
          · have hau2 : r.autoUpdate = false := by simpa using hau
            have hA := repoAttempt_of_noauto storage fs r he hm hau2
            rw [refresh_cons_none fails storage r rest fs hA]
            refine ⟨?_, ?_, ?_⟩
            · rw [z1]
              simp [hm]
            · rw [z2]
              simp [hau2]
            · simp [hA, z3]
        · have hA := repoAttempt_of_missing storage fs r he hm
          by_cases hf : fails (.clone r.url (getRepoPath storage r.url) r.branch) = true
          · rw [refresh_cons_fail fails storage r rest fs _ hA hf]
            refine ⟨?_, ?_, ?_⟩
            · rw [cloneCountUrl_cons, z1]
              simp [isCloneFor, he, hm]
            · rw [pullCountUrl_cons, z2]
              simp [isPullFor, hm]
            · simp [hA, hf]
          · have hf2 : fails (.clone r.url (getRepoPath storage r.url) r.branch) = false := by
              simpa using hf
            rw [refresh_cons_ok fails storage r rest fs _ hA hf2]
            obtain ⟨z1b, z2b, z3b⟩ :=
              refresh_zero fails storage r.url rest (fs ++ cloneTargets
                (.clone r.url (getRepoPath storage r.url) r.branch)) hua
            refine ⟨?_, ?_, ?_⟩
            · rw [cloneCountUrl_cons, z1b]
              simp [isCloneFor, he, hm]
            · rw [pullCountUrl_cons, z2b]
              simp [isPullFor, hm]
            · simp [hA, hf2, z3b]
      · have he2 : r.enabled = false := by simpa using he
        have hA := repoAttempt_disabled storage fs r he2
        rw [refresh_cons_none fails storage r rest fs hA]
        refine ⟨?_, ?_, ?_⟩
        · rw [z1]
          simp [he2]
        · rw [z2]
          simp [he2]
        · simp [hA, z3]
    · have hur : r.url ≠ a.url := hua r hr2
      have hpr : getRepoPath storage r.url ≠ getRepoPath storage a.url := by
        intro heq
        apply hpa
        rw [← heq]
        exact List.mem_map_of_mem _ hr2
      cases hA : repoAttempt storage fs a with
      | none =>
        rw [refresh_cons_none fails storage a rest fs hA]
        exact ih fs r hr2 hnd2
      | some op =>
        have hurl : opUrl op = a.url := repoAttempt_url storage fs a op hA
        have hcl : isCloneFor r.url op = false :=
          isCloneFor_of_ne r.url op (by rw [hurl]; exact Ne.symm hur)
        have hpl : isPullFor r.url op = false :=
          isPullFor_of_ne r.url op (by rw [hurl]; exact Ne.symm hur)
        by_cases hf : fails op = true
        · rw [refresh_cons_fail fails storage a rest fs op hA hf]
          obtain ⟨i1, i2, i3⟩ := ih fs r hr2 hnd2
          refine ⟨?_, ?_, ?_⟩
          · rw [cloneCountUrl_cons, i1, hcl]
            simp
          · rw [pullCountUrl_cons, i2, hpl]
            simp
          · simpa [List.mem_cons, hur] using i3
        · have hf2 : fails op = false := by simpa using hf
          rw [refresh_cons_ok fails storage a rest fs op hA hf2]
          have hmemiff : getRepoPath storage r.url ∈ fs ++ cloneTargets op ↔
              getRepoPath storage r.url ∈ fs := by
            rcases repoAttempt_cloneTargets storage fs a op hA with h0 | h1
            · rw [h0, List.append_nil]
            · rw [h1]
              simp [List.mem_append, hpr]
          obtain ⟨i1, i2, i3⟩ := ih (fs ++ cloneTargets op) r hr2 hnd2
          have hatt := repoAttempt_congr storage (fs ++ cloneTargets op) fs r hmemiff
          refine ⟨?_, ?_, ?_⟩
          · rw [cloneCountUrl_cons, i1, hcl]
            simp [hmemiff]
          · rw [pullCountUrl_cons, i2, hpl]
            simp [hmemiff]
          · rw [hatt] at i3
            exact i3

/-! ### Claim theorems -/

/-- Claim C5, counterexample: the claim says a url whose last path segment is
non-empty maps to that segment with the `.git` suffix stripped.  The code
removes the *first occurrence* of `.git` instead
(JavaScript `replace('.git', '')`): the segment `v1.gitignore` carries no
`.git` suffix, so the claimed name is `v1.gitignore` itself, but the code
produces `v1ignore`. -/
theorem repoDirName_replace_cex :
    repoDirName "https://h/v1.gitignore" = "v1ignore" ∧
    ("v1ignore" : String) ≠ "v1.gitignore" := by
  decide

/-- Claim C5 (amended): the working-copy directory name is a deterministic
function of the url: it is the url's last `/`-segment with the first
occurrence of `.git` removed; when that is empty, a base64 encoding of the
url's UTF-8 bytes is used; in particular `https://example.com/foo/bar.git`
maps to `bar`. -/
theorem repoDirName_characterization (url : String) :
    (repoBaseName url ≠ [] → repoDirName url = String.mk (repoBaseName url)) ∧
    (repoBaseName url = [] → repoDirName url = String.mk (base64Encode (utf8Bytes url))) ∧
    repoDirName "https://example.com/foo/bar.git" = "bar" := by
  refine ⟨fun h => ?_, fun h => ?_, by decide⟩
  · unfold repoDirName
    rw [if_neg h]
  · unfold repoDirName
    rw [if_pos h]

/-- Witness for the C5 theorem: both branches instantiated. -/
theorem repoDirName_characterization_witness :
    repoDirName "https://example.com/foo/bar.git"
      = String.mk (repoBaseName "https://example.com/foo/bar.git") ∧
    repoDirName "a/" = String.mk (base64Encode (utf8Bytes "a/")) :=
  ⟨(repoDirName_characterization "https://example.com/foo/bar.git").1 (by decide),
   (repoDirName_characterization "a/").2.1 (by decide)⟩

/-- Claim C10: the working-copy path derivation is not injective: two
distinct urls whose last segment agrees map to the same directory. -/
theorem getRepoPath_collision (storage : String) :
    getRepoPath storage "https://host/a/rules.git"
      = getRepoPath storage "https://host/b/rules.git" ∧
    ("https://host/a/rules.git" : String) ≠ "https://host/b/rules.git" := by
  constructor
  · unfold getRepoPath
    have h : repoDirName "https://host/a/rules.git" = repoDirName "https://host/b/rules.git" := by
      decide
    rw [h]
  · decide

/-- Claim C8: with no intervening state change, two consecutive
`getAllRules` calls return identical rule lists (and the read-only scan
leaves the world untouched). -/
theorem getAllRules_idempotent (storage : String) (repos : List Repository) (w : ScanWorld) :
    (getAllRulesSt storage repos ((getAllRulesSt storage repos w).2)).1
      = (getAllRulesSt storage repos w).1 ∧
    (getAllRulesSt storage repos ((getAllRulesSt storage repos w).2)).2
      = (getAllRulesSt storage repos w).2 :=
  ⟨rfl, rfl⟩

/-- Claim C9: `removeRepository` drops exactly the descriptors carrying the
given url from the configuration (every other descriptor's multiplicity is
unchanged) and performs no filesystem change. -/
theorem removeRepository_frame (repos : List Repository) (url : String) (fs : FileSys)
    (r : Repository) :
    (removeRepositoryFS repos url fs).2 = fs ∧
    (removeRepositoryFS repos url fs).1.count r
      = if r.url = url then 0 else repos.count r :=
  ⟨rfl, count_filter_url url r repos⟩

/-- Claim C7, counterexample: the claim says update, toggle *and remove*
fail with a not-found error when the url is absent.  `removeRepository`
(repositoryManager.ts lines 209-221) performs no not-found check: with an
absent url it completes normally, writing the configuration back unchanged,
while the spec-mandated version (`removeRepositorySpec`) errors. -/
theorem removeRepository_no_notFound_cex :
    removeRepositorySpec [c7B] "https://h/x/a.git" = .error "NotFoundError" ∧
    removeRepositoryFS [c7B] "https://h/x/a.git" ⟨[], []⟩ = ([c7B], ⟨[], []⟩) :=
  ⟨rfl, rfl⟩

/-- Claim C7 (amended): for a url absent from the configuration,
`updateRepository` throws its not-found error and the two toggles fail with
theirs, each performing no other effect (no git operation, no configuration
change); `removeRepository`, by contrast, has no not-found check and
completes normally, leaving the configuration and filesystem unchanged. -/
theorem singleItem_notFound (fails : VcsOp → Bool) (storage : String)
    (repos : List Repository) (url : String) (fsx : List String) (fs : FileSys)
    (h : ∀ r ∈ repos, r.url ≠ url) :
    updateRepository fails storage repos url fsx = ([], .error (notFoundConfigMsg url)) ∧
    toggleRepositoryEnabled fails storage repos url fsx = .error (repoNotFoundMsg url) ∧
    toggleAutoUpdate fails storage repos url fsx = .error (repoNotFoundMsg url) ∧
    removeRepositoryFS repos url fs = (repos, fs) := by
  have hfind : repos.find? (fun r => r.url = url) = none := by
    rw [List.find?_eq_none]
    intro x hx
    simp [h x hx]
  have hfilter : repos.filter (fun r => r.url != url) = repos := by
    apply List.filter_eq_self.mpr
    intro a ha
    simp [h a ha]
  refine ⟨?_, ?_, ?_, ?_⟩
  · unfold updateRepository
    rw [hfind]
  · unfold toggleRepositoryEnabled
    rw [hfind]
  · unfold toggleAutoUpdate
    rw [hfind]
  · unfold removeRepositoryFS removeRepository
    rw [hfilter]

/-- Witness for the C7 theorem at a concrete configuration. -/
theorem singleItem_notFound_witness :
    updateRepository (fun _ => false) "st" [c7B] "https://h/x/a.git" []
      = ([], .error (notFoundConfigMsg "https://h/x/a.git")) ∧
    removeRepositoryFS [c7B] "https://h/x/a.git" ⟨[], []⟩ = ([c7B], ⟨[], []⟩) := by
  have h := singleItem_notFound (fun _ => false) "st" [c7B] "https://h/x/a.git" [] ⟨[], []⟩
    (by decide)
  exact ⟨h.1, h.2.2.2⟩

/-- Claim C4: `getAllRules` considers only enabled repositories, silently
skips a repository whose `<workingCopyPath>/<rulesSubdirectory>` does not
exist (no rules, no error), and otherwise contributes exactly the immediate
(non-recursive) regular-file entries whose name ends in `.mdc`, each
descriptor's name being the filename with the extension stripped: the loop
equals the spec-shaped `listRulesSpec`. -/
theorem getAllRules_eq_listRulesSpec (storage : String) (fsx : List String)
    (listings : List (String × List DirEntry)) (repos : List Repository) :
    getAllRules storage fsx listings repos = listRulesSpec storage fsx listings repos := by
  induction repos with
  | nil => rfl
  | cons repo rest ih =>
    cases he : repo.enabled with
    | false =>
      simp only [getAllRules, listRulesSpec, List.filter_cons, he, Bool.false_eq_true,
        if_false]
      simpa [listRulesSpec] using ih
    | true =>
      simp only [getAllRules, listRulesSpec, List.filter_cons, he, if_true,
        List.flatMap_cons]
      congr 1
      by_cases hmem : getRepoPath storage repo.url ++ "/" ++ repo.rulesDir ∈ fsx
      · rw [if_pos hmem, if_pos hmem]
        cases hL : lookupListing (getRepoPath storage repo.url ++ "/" ++ repo.rulesDir)
            listings with
        | none => rfl
        | some entries =>
          dsimp only
          rw [rulesFromEntries_eq _ _ entries]
          apply List.map_congr_left
          intro e hmemf
          rw [List.mem_filter] at hmemf
          have h2 : strEndsWith e.name ".mdc" = true := by
            have hb := hmemf.2
            rw [Bool.and_eq_true] at hb
            exact hb.2
          rw [basenameDrop_of_endsWith e.name ".mdc" h2]
      · rw [if_neg hmem, if_neg hmem]

/-- Claim C2: `installAllRules` tries every rule of the list in order (each
rule gets an outcome, so a failure never stops the remaining installs), the
reported `succeeded` count is the number of installs that completed and
`failed` the number that threw; in the concrete 3-rule scenario where only
rule 2's source file is missing, rules 1 and 3 are installed and the report
is 2 succeeded / 1 failed. -/
theorem installAllRules_isolation :
    (∀ (rules : List Rule) (dir : String) (fs : FileSys),
      (installOutcomes rules dir fs).length = rules.length ∧
      (installAllRules rules dir fs).2.1 = (installOutcomes rules dir fs).count true ∧
      (installAllRules rules dir fs).2.2 = (installOutcomes rules dir fs).count false) ∧
    (installOutcomes [c2r1, c2r2, c2r3] "ws/.cursor/rules" c2fs = [true, false, true] ∧
     (installAllRules [c2r1, c2r2, c2r3] "ws/.cursor/rules" c2fs).2.1 = 2 ∧
     (installAllRules [c2r1, c2r2, c2r3] "ws/.cursor/rules" c2fs).2.2 = 1 ∧
     lookupFile (installAllRules [c2r1, c2r2, c2r3] "ws/.cursor/rules" c2fs).1.files
       "ws/.cursor/rules/a.mdc" = some [1] ∧
     lookupFile (installAllRules [c2r1, c2r2, c2r3] "ws/.cursor/rules" c2fs).1.files
       "ws/.cursor/rules/c.mdc" = some [3]) := by
  constructor
  · intro rules dir fs
    induction rules generalizing fs with
    | nil => simp [installOutcomes, installAllRules]
    | cons rule rest ih =>
      cases h : installRule rule dir fs with
      | none =>
        obtain ⟨l1, l2, l3⟩ := ih fs
        simp [installOutcomes, installAllRules, h, List.count_cons, l1, l2, l3]
      | some fs2 =>
        obtain ⟨l1, l2, l3⟩ := ih fs2
        simp [installOutcomes, installAllRules, h, List.count_cons, l1, l2, l3]
  · refine ⟨by decide, by decide, by decide, by decide, by decide⟩

/-- Claim C3: when the rule's source file exists, `installRule` succeeds,
creates the destination directory together with all missing intermediate
directories when it is absent (and touches no directory when it is
present), writes `<dir>/<name>.mdc` with exactly the source bytes, leaves
every other file unchanged, and replaces an already-present target in
place: the set of file paths afterwards gains at most the target, never a
duplicate or renamed entry. -/
theorem installRule_install_props (rule : Rule) (dir : String) (fs : FileSys)
    (content : List Nat)
    (hs : lookupFile fs.files (rule.path ++ "/" ++ rule.name ++ ".mdc") = some content) :
    ∃ fs2, installRule rule dir fs = some fs2 ∧
      lookupFile fs2.files (dir ++ "/" ++ rule.name ++ ".mdc") = some content ∧
      (existsPath fs dir = false → ∀ d ∈ pathPrefixList dir, d ∈ fs2.dirs) ∧
      (existsPath fs dir = true → fs2.dirs = fs.dirs) ∧
      (∀ q, q ≠ dir ++ "/" ++ rule.name ++ ".mdc" →
        lookupFile fs2.files q = lookupFile fs.files q) ∧
      fs2.files.map Prod.fst =
        (if (lookupFile fs.files (dir ++ "/" ++ rule.name ++ ".mdc")).isSome
         then fs.files.map Prod.fst
         else fs.files.map Prod.fst ++ [dir ++ "/" ++ rule.name ++ ".mdc"]) := by
  simp only [installRule]
  by_cases hex : existsPath fs dir = true
  · rw [if_pos hex, hs]
    refine ⟨_, rfl, lookup_setFile_self _ _ _, ?_, ?_, ?_, map_fst_setFile _ _ _⟩
    · intro hfalse
      rw [hex] at hfalse
      cases hfalse
    · intro _
      rfl
    · intro q hq
      exact lookup_setFile_ne _ _ _ hq _
  · have hex2 : existsPath fs dir = false := by simpa using hex
    rw [if_neg hex]
    rw [show (mkdirRec fs dir).files = fs.files from rfl, hs]
    refine ⟨_, rfl, lookup_setFile_self _ _ _, ?_, ?_, ?_, map_fst_setFile _ _ _⟩
    · intro _ d hd
      exact mem_mkdirRec fs dir d hd
    · intro htrue
      rw [hex2] at htrue
      cases htrue
    · intro q hq
      exact lookup_setFile_ne _ _ _ hq _

/-- Witness for the C3 theorem: installing `c2r1` from its concrete
filesystem succeeds. -/
theorem installRule_install_props_witness :
    (installRule c2r1 "ws/.cursor/rules" c2fs).isSome = true := by
  obtain ⟨fs2, h, -⟩ :=
    installRule_install_props c2r1 "ws/.cursor/rules" c2fs [1] (by decide)
  rw [h]
  rfl

/-- Claim C1, counterexample: the claim quantifies over every configured
list, but two enabled repositories with distinct urls can share the derived
working-copy path (here `s/rules`).  Starting with no working copies, the
run clones the first; when the second is reached its path now exists, so no
clone is ever attempted for it even though it is enabled and its
working-copy path did not exist when `synchronize` was called. -/
theorem refresh_clone_sharedPath_cex :
    c1Y.enabled = true ∧
    getRepoPath "s" c1Y.url ∉ ([] : List String) ∧
    c1X.url ≠ c1Y.url ∧
    cloneCountUrl c1Y.url
      (refreshRepositories (fun _ => false) "s" [c1X, c1Y] []).ops = 0 := by
  decide

/-- Claim C1 (amended): provided distinct configured repositories derive
distinct working-copy paths, one `refreshRepositories` run attempts exactly
one clone for each enabled repository whose working-copy path does not
exist (and no checkout+pull for it), exactly one checkout+pull for each
enabled repository whose path exists with `autoUpdate` on (and no clone),
and no git operation at all for an enabled repository whose path exists
with `autoUpdate` off or for a disabled repository. -/
theorem refresh_sync_plan (fails : VcsOp → Bool) (storage : String)
    (repos : List Repository) (fs : List String) (r : Repository)
    (hnd : (repos.map fun x => getRepoPath storage x.url).Nodup) (hr : r ∈ repos) :
    (r.enabled = true → getRepoPath storage r.url ∉ fs →
      cloneCountUrl r.url (refreshRepositories fails storage repos fs).ops = 1 ∧
      pullCountUrl r.url (refreshRepositories fails storage repos fs).ops = 0) ∧
    (r.enabled = true → getRepoPath storage r.url ∈ fs → r.autoUpdate = true →
      pullCountUrl r.url (refreshRepositories fails storage repos fs).ops = 1 ∧
      cloneCountUrl r.url (refreshRepositories fails storage repos fs).ops = 0) ∧
    (r.enabled = true → getRepoPath storage r.url ∈ fs → r.autoUpdate = false →
      cloneCountUrl r.url (refreshRepositories fails storage repos fs).ops = 0 ∧
      pullCountUrl r.url (refreshRepositories fails storage repos fs).ops = 0) ∧
    (r.enabled = false →
      cloneCountUrl r.url (refreshRepositories fails storage repos fs).ops = 0 ∧
      pullCountUrl r.url (refreshRepositories fails storage repos fs).ops = 0) := by
  obtain ⟨s1, s2, s3⟩ := refresh_spec fails storage repos fs r hr hnd
  refine ⟨fun he hm => ⟨?_, ?_⟩, fun he hm hau => ⟨?_, ?_⟩, fun he hm hau => ⟨?_, ?_⟩,
    fun he => ⟨?_, ?_⟩⟩
  · rw [s1]
    simp [he, hm]
  · rw [s2]
    simp [hm]
  · rw [s2]
    simp [he, hm, hau]
  · rw [s1]
    simp [hm]
  · rw [s1]
    simp [hm]
  · rw [s2]
    simp [hau]
  · rw [s1]
    simp [he]
  · rw [s2]
    simp [he]

/-- Witness for the C1 theorem: the enabled repository `c1A` lacking a
working copy is cloned exactly once and never pulled. -/
theorem refresh_sync_plan_witness :
    cloneCountUrl c1A.url
      (refreshRepositories (fun _ => false) "st" [c1A, c1B, c1C, c1D]
        ["st/b", "st/c"]).ops = 1 ∧
    pullCountUrl c1A.url
      (refreshRepositories (fun _ => false) "st" [c1A, c1B, c1C, c1D]
        ["st/b", "st/c"]).ops = 0 :=
  (refresh_sync_plan (fun _ => false) "st" [c1A, c1B, c1C, c1D] ["st/b", "st/c"] c1A
    (by decide) (by decide)).1 (by decide) (by decide)

/-- Claim C6: under the same distinct-paths proviso, when the git operation
attempted for one enabled repository fails, that repository's url is
reported in an error notification, it is not retried (its url receives
exactly the one attempt), and the run still performs the planned attempt
for every other repository: the batch neither aborts nor throws (the
embedding is a total function). -/
theorem refresh_failure_isolation (fails : VcsOp → Bool) (storage : String)
    (repos : List Repository) (fs : List String) (r : Repository) (op : VcsOp)
    (hnd : (repos.map fun x => getRepoPath storage x.url).Nodup) (hr : r ∈ repos)
    (hop : repoAttempt storage fs r = some op) (hf : fails op = true) :
    r.url ∈ (refreshRepositories fails storage repos fs).errors ∧
    cloneCountUrl r.url (refreshRepositories fails storage repos fs).ops
      + pullCountUrl r.url (refreshRepositories fails storage repos fs).ops = 1 ∧
    (∀ r2, r2 ∈ repos → r2.enabled = true → getRepoPath storage r2.url ∉ fs →
      cloneCountUrl r2.url (refreshRepositories fails storage repos fs).ops = 1) ∧
    (∀ r2, r2 ∈ repos → r2.enabled = true → getRepoPath storage r2.url ∈ fs →
      r2.autoUpdate = true →
      pullCountUrl r2.url (refreshRepositories fails storage repos fs).ops = 1) := by
  obtain ⟨s1, s2, s3⟩ := refresh_spec fails storage repos fs r hr hnd
  refine ⟨s3.mpr ⟨op, hop, hf⟩, ?_, ?_, ?_⟩
  · rcases repoAttempt_cases storage fs r op hop with ⟨he, hm, -⟩ | ⟨he, hm, hau, -⟩
    · rw [s1, s2]
      simp [he, hm]
    · rw [s1, s2]
      simp [he, hm, hau]
  · intro r2 h2 he hm
    obtain ⟨t1, -, -⟩ := refresh_spec fails storage repos fs r2 h2 hnd
    rw [t1]
    simp [he, hm]
  · intro r2 h2 he hm hau
    obtain ⟨-, t2, -⟩ := refresh_spec fails storage repos fs r2 h2 hnd
    rw [t2]
    simp [he, hm, hau]

/-- Witness for the C6 theorem: `c1A`'s clone fails, its url is reported,
and the other repository `c1B` still receives its checkout+pull. -/
theorem refresh_failure_isolation_witness :
    c1A.url ∈ (refreshRepositories c6fails "st" [c1A, c1B] ["st/b"]).errors ∧
    pullCountUrl c1B.url (refreshRepositories c6fails "st" [c1A, c1B] ["st/b"]).ops = 1 := by
  have h := refresh_failure_isolation c6fails "st" [c1A, c1B] ["st/b"] c1A
    (VcsOp.clone "https://h/x/a.git" "st/a" "main") (by decide) (by decide) (by decide)
    (by decide)
  exact ⟨h.1, h.2.2.2 c1B (by decide) (by decide) (by decide) (by decide)⟩

end CursorRules
